import Mathlib

set_option maxRecDepth 16384

/-!
Verification of the lender-matching system: a shallow embedding of the
frontend presentation code (ReasoningList, MatchingResults, the rule
editors) and of the policy-evaluation engine specified in the design
documents, together with proofs about both.
-/

namespace LenderMatching

/-! ## Display values and formatValue (ReasoningList.tsx) -/

/-- Primitive JavaScript values that occur as actual or threshold values in a
rendered RuleEvaluationResult: strings, numbers and booleans.  Numeric display
values are modelled as integers, which covers every number the matching UI
shows (fit scores, thresholds, applicant figures). -/
inductive JsPrim where
  | s (v : String)
  | n (v : Int)
  | b (v : Bool)
deriving DecidableEq

/-- A display value passed to formatValue in ReasoningList.tsx: a primitive or
an array of primitives. -/
inductive JsValue where
  | prim (p : JsPrim)
  | arr (l : List JsPrim)
deriving DecidableEq

/-- Grouping step for locale number formatting: the argument is a digit list
least-significant first; a comma is inserted after every third digit. -/
def groupRev : List Char → List Char
  | a :: b :: c :: d :: rest => a :: b :: c :: ',' :: groupRev (d :: rest)
  | l => l

/-- The en-US result of Number.prototype.toLocaleString for an integer:
thousands separated by commas, with a leading minus sign when negative. -/
def localeString (v : Int) : String :=
  let mag := String.mk (groupRev (Nat.toDigits 10 v.natAbs).reverse).reverse
  if v < 0 then "-" ++ mag else mag

/-- The JavaScript String() conversion of a primitive, as used by Array.join:
strings unchanged, numbers in plain decimal, booleans as true or false. -/
def jsString : JsPrim → String
  | .s v => v
  | .n v => toString v
  | .b v => if v then "true" else "false"

/-- Translation of formatValue from ReasoningList.tsx: booleans map to Yes or
No, numbers to their locale string, arrays to their elements joined by a comma
and space, and anything else (here, strings) to String(value). -/
def formatValue : JsValue → String
  | .prim (.b v) => if v then "Yes" else "No"
  | .prim (.n v) => localeString v
  | .arr l => String.intercalate ", " (l.map jsString)
  | .prim (.s v) => v

/-- Translation of getOperatorSymbol from ReasoningList.tsx. -/
def getOperatorSymbol (operator : String) : String :=
  if operator = "gt" then ">"
  else if operator = "lt" then "<"
  else if operator = "gte" then "≥"
  else if operator = "lte" then "≤"
  else if operator = "eq" then "="
  else if operator = "neq" then "≠"
  else if operator = "in" then "in"
  else if operator = "contains" then "contains"
  else operator

/-- The RuleEvaluationResult record of the frontend models
(src/unnamed/part_005): per-rule outcome as delivered to the UI. -/
structure RuleEvaluationResult where
  rule_id : String
  parameter_key : String
  parameter_label : String
  operator : String
  passed : Bool
  actual_value : JsValue
  threshold_value : JsValue
  failure_reason : Option String
deriving DecidableEq

/-- The passed-rules list of ReasoningList: evaluations.filter(e => e.passed). -/
def passedRules (evaluations : List RuleEvaluationResult) : List RuleEvaluationResult :=
  evaluations.filter (fun e => e.passed)

/-- The failed-rules list of ReasoningList: evaluations.filter(e => !e.passed). -/
def failedRules (evaluations : List RuleEvaluationResult) : List RuleEvaluationResult :=
  evaluations.filter (fun e => !e.passed)

/-- The detail text ReasoningList synthesizes for an evaluation: formatted
actual value, operator symbol, formatted threshold value. -/
def synthesizedDetail (e : RuleEvaluationResult) : String :=
  formatValue e.actual_value ++ " " ++ getOperatorSymbol e.operator ++ " " ++
    formatValue e.threshold_value

/-- JavaScript truthiness of the optional failure_reason field: undefined and
the empty string are both falsy, so both select the synthesized fallback in
the expression failure_reason || (...). -/
def reasonTruthy : Option String → Bool
  | none => false
  | some s => !(s == "")

/-- Text content of one Criteria Met list item in ReasoningList.tsx: the bold
parameter label followed by the synthesized detail. -/
def renderedPassedItem (e : RuleEvaluationResult) : String :=
  e.parameter_label ++ ": " ++ synthesizedDetail e

/-- Text content of one Criteria Failed list item in ReasoningList.tsx: the
bold parameter label followed by failure_reason || synthesized detail. -/
def renderedFailedItem (e : RuleEvaluationResult) : String :=
  e.parameter_label ++ ": " ++
    (match e.failure_reason with
     | some r => if r == "" then synthesizedDetail e else r
     | none => synthesizedDetail e)

/-- The text an evaluation is rendered with, according to the section the
ReasoningList filters place it in. -/
def renderedItem (e : RuleEvaluationResult) : String :=
  if e.passed then renderedPassedItem e else renderedFailedItem e

/-! ## The policy evaluation engine

Modelled from the spec: the Rule Evaluator, Group Evaluator and Policy
Evaluator of sections 4.1 to 4.3 are a backend service whose code is not in
the frontend sources; only its data shapes, its consumers and the design
documents appear there.  The definitions below follow the spec text. -/

/-- Modelled from the spec: parameter types of the catalog (section 3). -/
inductive ParamType where
  | integer
  | decimal
  | boolean
  | enumeration
  | text
deriving DecidableEq

/-- Modelled from the spec: the tagged union of dynamic values (section 9)
over integer, decimal, boolean, string and set-of-string. -/
inductive EngineValue where
  | int (v : Int)
  | dec (v : ℚ)
  | bool (v : Bool)
  | str (v : String)
  | strSet (v : List String)
deriving DecidableEq

/-- Modelled from the spec: the rule operator set of section 3. -/
inductive SpecOperator where
  | eq
  | neq
  | gt
  | gte
  | lt
  | lte
  | inSet
  | contains
  | between
deriving DecidableEq

/-- Modelled from the spec: a comparison value is a single value, a numeric
range for between, or a set for inSet (section 3). -/
inductive ComparisonValue where
  | value (v : EngineValue)
  | range (lo hi : ℚ)
  | set (vs : List String)
deriving DecidableEq

/-- Modelled from the spec: an atomic rule (section 3) with a parameter key,
an operator, a comparison value, a non-negative weight and an optional
configured failure reason. -/
structure SpecRule where
  id : String
  parameterKey : String
  operator : SpecOperator
  comparisonValue : ComparisonValue
  weight : Nat
  failureReason : Option String
deriving DecidableEq

/-- Modelled from the spec: the logic mode of a rule group. -/
inductive GroupLogic where
  | and
  | or
deriving DecidableEq

/-- Modelled from the spec: the kind of a rule group, hard knockout versus
soft scoring. -/
inductive GroupKind where
  | hard
  | soft
deriving DecidableEq

mutual
/-- Modelled from the spec: a child of a rule group is a rule or a nested
group (section 3), kept in declared order. -/
inductive GroupChild where
  | rule (r : SpecRule)
  | group (g : RuleGroup)
/-- Modelled from the spec: a rule group node with a logic mode, a kind and an
ordered list of children (section 3). -/
inductive RuleGroup where
  | mk (logic : GroupLogic) (kind : GroupKind) (children : List GroupChild)
end

/-- The logic mode of a group. -/
def RuleGroup.logic : RuleGroup → GroupLogic
  | .mk l _ _ => l

/-- The kind of a group. -/
def RuleGroup.kind : RuleGroup → GroupKind
  | .mk _ k _ => k

/-- The ordered children of a group. -/
def RuleGroup.children : RuleGroup → List GroupChild
  | .mk _ _ cs => cs

/-- Modelled from the spec: catalog entry for one parameter, its declared type
and permitted enumeration values (section 2). -/
structure ParamInfo where
  type : ParamType
  enumValues : List String
deriving DecidableEq

/-- A parameter catalog: a lookup from parameter key to its declaration. -/
abbrev Catalog := List (String × ParamInfo)

/-- An application record: an immutable mapping from parameter key to a typed
value. -/
abbrev ApplicationRecord := List (String × EngineValue)

/-- First-match lookup in a key-value list. -/
def lookupKey {α : Type} (m : List (String × α)) (k : String) : Option α :=
  (m.find? (fun p => p.1 == k)).map (fun p => p.2)

/-- Modelled from the spec: coercion of a stored value to the declared
parameter type (section 4.1); none signals a coercion failure. -/
def coerceValue : EngineValue → ParamType → Option EngineValue
  | .int v, .integer => some (.int v)
  | .int v, .decimal => some (.dec (v : ℚ))
  | .dec v, .decimal => some (.dec v)
  | .dec v, .integer => if v.den == 1 then some (.int v.num) else none
  | .bool v, .boolean => some (.bool v)
  | .str v, .enumeration => some (.str v)
  | .str v, .text => some (.str v)
  | _, _ => none

/-- Numeric view of an engine value, when it has one. -/
def numericValue : EngineValue → Option ℚ
  | .int v => some (v : ℚ)
  | .dec v => some v
  | _ => none

/-- Numeric comparison helper: applies the given comparison to the actual
value and a single-value threshold; fails closed when either side is not
numeric or the comparison value is not a single value. -/
def cmpNumeric (actual : EngineValue) (cmp : ComparisonValue) (f : ℚ → ℚ → Bool) : Bool :=
  match cmp with
  | .value v =>
    match numericValue actual, numericValue v with
    | some a, some t => f a t
    | _, _ => false
  | _ => false

/-- Substring test used by the contains operator on strings. -/
def strContains (hay needle : String) : Bool :=
  needle == "" || (hay.splitOn needle).length != 1

/-- Modelled from the spec: operator application of section 4.1.  Equality is
exact after coercion, the order operators compare numerically and fail
closed, between is inclusive on both ends, inSet is set membership and
contains treats the actual value as a collection or substring. -/
def applyOperator (op : SpecOperator) (actual : EngineValue) (cmp : ComparisonValue) : Bool :=
  match op with
  | .eq => match cmp with | .value v => decide (actual = v) | _ => false
  | .neq => match cmp with | .value v => decide (actual ≠ v) | _ => false
  | .gt => cmpNumeric actual cmp (fun a t => decide (t < a))
  | .gte => cmpNumeric actual cmp (fun a t => decide (t ≤ a))
  | .lt => cmpNumeric actual cmp (fun a t => decide (a < t))
  | .lte => cmpNumeric actual cmp (fun a t => decide (a ≤ t))
  | .between =>
    match numericValue actual, cmp with
    | some a, .range lo hi => decide (lo ≤ a) && decide (a ≤ hi)
    | _, _ => false
  | .inSet =>
    match actual, cmp with
    | .str v, .set vs => vs.contains v
    | _, _ => false
  | .contains =>
    match actual, cmp with
    | .strSet v, .value (.str t) => v.contains t
    | .str v, .value (.str t) => strContains v t
    | _, _ => false

/-- Modelled from the spec: the per-rule output record of section 3 with rule
id, parameter key, operator, outcome, actual and threshold values and an
optional failure reason. -/
structure EngineRuleResult where
  ruleId : String
  parameterKey : String
  operator : SpecOperator
  passed : Bool
  actualValue : Option EngineValue
  thresholdValue : ComparisonValue
  failureReason : Option String
deriving DecidableEq

/-- A short phrase describing a failed operator, used when synthesizing a
failure reason. -/
def operatorPhrase : SpecOperator → String
  | .eq => "is not equal to"
  | .neq => "is equal to"
  | .gt => "is not above"
  | .gte => "is below required"
  | .lt => "is not below"
  | .lte => "is above allowed"
  | .inSet => "is not one of"
  | .contains => "does not contain"
  | .between => "is outside"

/-- Plain rendering of an engine value for synthesized reasons. -/
def showEngineValue : EngineValue → String
  | .int v => toString v
  | .dec v => toString v.num ++ (if v.den == 1 then "" else "/" ++ toString v.den)
  | .bool v => if v then "true" else "false"
  | .str v => v
  | .strSet v => String.intercalate ", " v

/-- Plain rendering of a comparison value for synthesized reasons. -/
def showComparison : ComparisonValue → String
  | .value v => showEngineValue v
  | .range lo hi => showEngineValue (.dec lo) ++ " to " ++ showEngineValue (.dec hi)
  | .set vs => String.intercalate ", " vs

/-- Modelled from the spec: the failure reason synthesized from the parameter,
the actual value, the operator and the threshold (section 4.1). -/
def synthesizeReason (r : SpecRule) (actual : EngineValue) : String :=
  r.parameterKey ++ " " ++ showEngineValue actual ++ " " ++
    operatorPhrase r.operator ++ " " ++ showComparison r.comparisonValue

/-- Helper building a failed result that carries an explanatory reason. -/
def failedResult (r : SpecRule) (actual : Option EngineValue) (reason : String) : EngineRuleResult :=
  { ruleId := r.id, parameterKey := r.parameterKey, operator := r.operator,
    passed := false, actualValue := actual, thresholdValue := r.comparisonValue,
    failureReason := some reason }

/-- Modelled from the spec: the Rule Evaluator of section 4.1.  A missing
application entry fails with a missing-value reason; an unknown catalog
parameter is treated the same way (section 6); a failed coercion fails with an
invalid-value-type reason; otherwise the operator decides the outcome, and a
failing rule carries its configured failure reason or a synthesized one.  The
function is total: no input aborts the evaluation. -/
def evaluateRule (r : SpecRule) (app : ApplicationRecord) (catalog : Catalog) : EngineRuleResult :=
  match lookupKey app r.parameterKey with
  | none => failedResult r none ("missing value for " ++ r.parameterKey)
  | some raw =>
    match lookupKey catalog r.parameterKey with
    | none => failedResult r (some raw) ("missing value for " ++ r.parameterKey)
    | some info =>
      match coerceValue raw info.type with
      | none => failedResult r (some raw) ("invalid value type for " ++ r.parameterKey)
      | some v =>
        if applyOperator r.operator v r.comparisonValue then
          { ruleId := r.id, parameterKey := r.parameterKey, operator := r.operator,
            passed := true, actualValue := some v, thresholdValue := r.comparisonValue,
            failureReason := none }
        else
          failedResult r (some v)
            ((r.failureReason).getD (synthesizeReason r v))

/-- Modelled from the spec: the result of evaluating one group (section 4.2):
the aggregated boolean, the earned and possible scoring weight, and the flat
ordered evaluation list of the subtree. -/
structure GroupOutcome where
  aggregatePass : Bool
  earned : Nat
  possible : Nat
  evaluations : List EngineRuleResult
deriving DecidableEq

mutual
/-- Modelled from the spec: the Group Evaluator of section 4.2.  Every child
is evaluated in declared order with no short-circuiting; AND requires all
children to pass and OR at least one, a childless group passing vacuously;
a hard group contributes zero scoring weight, a soft group sums the weights
of its rules and of nested soft groups; all child evaluations are flattened
in order. -/
def evaluateGroup : RuleGroup → ApplicationRecord → Catalog → GroupOutcome
  | .mk logic kind children, app, catalog =>
    let rs := evaluateChildren children app catalog
    { aggregatePass :=
        match logic with
        | .and => rs.all (fun c => c.aggregatePass)
        | .or => if rs.isEmpty then true else rs.any (fun c => c.aggregatePass),
      earned :=
        match kind with
        | .hard => 0
        | .soft => (rs.map (fun c => c.earned)).sum,
      possible :=
        match kind with
        | .hard => 0
        | .soft => (rs.map (fun c => c.possible)).sum,
      evaluations := (rs.map (fun c => c.evaluations)).flatten }

/-- Evaluation of a list of group children, in declared order. -/
def evaluateChildren : List GroupChild → ApplicationRecord → Catalog → List GroupOutcome
  | [], _, _ => []
  | c :: cs, app, catalog => evaluateChild c app catalog :: evaluateChildren cs app catalog

/-- Evaluation of a single child: a rule child contributes its own weight as
possible and, when it passes, as earned; a group child recurses. -/
def evaluateChild : GroupChild → ApplicationRecord → Catalog → GroupOutcome
  | .rule r, app, catalog =>
    let res := evaluateRule r app catalog
    { aggregatePass := res.passed,
      earned := if res.passed then r.weight else 0,
      possible := r.weight,
      evaluations := [res] }
  | .group g, app, catalog => evaluateGroup g app catalog
end

/-- Modelled from the spec: a policy (section 3) with its root rule group and
its minimum fit score threshold. -/
structure SpecPolicy where
  id : String
  lenderId : String
  name : String
  minFitScore : Nat
  rootGroup : RuleGroup

/-- Modelled from the spec: fit-score normalization of section 4.3.  A policy
with zero possible weight scores a perfect 100; otherwise the percentage of
earned weight is rounded half-up and clamped to the 0 to 100 range. -/
def fitScoreOf (earned possible : Nat) : Nat :=
  if possible = 0 then 100
  else min 100 ((200 * earned + possible) / (2 * possible))

/-- The round half-up of 100 multiplied by earned over possible, stated the
way the spec writes the fit-score formula, for comparison with fitScoreOf. -/
def roundPercent (earned possible : Nat) : Nat :=
  (200 * earned + possible) / (2 * possible)

/-- Modelled from the spec: the MatchResult the engine produces (section 3). -/
structure EngineMatchResult where
  policyId : String
  lenderId : String
  eligible : Bool
  fitScore : Nat
  evaluations : List EngineRuleResult
deriving DecidableEq

/-- Modelled from the spec: the Policy Evaluator of section 4.3.  The root
group is evaluated once; the fit score is the normalized earned share; the
policy is eligible exactly when the root group passes and the fit score
reaches the minimum fit score. -/
def evaluatePolicy (p : SpecPolicy) (app : ApplicationRecord) (catalog : Catalog) : EngineMatchResult :=
  let outcome := evaluateGroup p.rootGroup app catalog
  let fit := fitScoreOf outcome.earned outcome.possible
  { policyId := p.id, lenderId := p.lenderId,
    eligible := outcome.aggregatePass && decide (p.minFitScore ≤ fit),
    fitScore := fit,
    evaluations := outcome.evaluations }

/-! ## Invariants of the engine -/

mutual
/-- The earned weight of a group never exceeds its possible weight. -/
theorem evaluateGroup_earned_le_possible (g : RuleGroup) (app : ApplicationRecord)
    (catalog : Catalog) :
    (evaluateGroup g app catalog).earned ≤ (evaluateGroup g app catalog).possible := by
  match g with
  | .mk logic kind children =>
    have h := evaluateChildren_earned_le_possible children app catalog
    cases kind with
    | hard => simp [evaluateGroup]
    | soft =>
      simp only [evaluateGroup]
      exact List.sum_le_sum h

/-- The earned weight of every evaluated child never exceeds its possible
weight. -/
theorem evaluateChildren_earned_le_possible (cs : List GroupChild) (app : ApplicationRecord)
    (catalog : Catalog) :
    ∀ c ∈ evaluateChildren cs app catalog, c.earned ≤ c.possible := by
  match cs with
  | [] => intro c hc; simp [evaluateChildren] at hc
  | c₀ :: rest =>
    intro c hc
    rw [evaluateChildren] at hc
    rcases List.mem_cons.mp hc with h | h
    · subst h; exact evaluateChild_earned_le_possible c₀ app catalog
    · exact evaluateChildren_earned_le_possible rest app catalog c h

/-- The earned weight of a single evaluated child never exceeds its possible
weight. -/
theorem evaluateChild_earned_le_possible (c : GroupChild) (app : ApplicationRecord)
    (catalog : Catalog) :
    (evaluateChild c app catalog).earned ≤ (evaluateChild c app catalog).possible := by
  match c with
  | .rule r => simp only [evaluateChild]; split <;> simp
  | .group g => exact evaluateGroup_earned_le_possible g app catalog
end

/-- With earned at most possible and possible positive, the rounded percentage
is at most 100. -/
theorem roundPercent_le_100 (earned possible : Nat) (hle : earned ≤ possible)
    (hpos : 0 < possible) : roundPercent earned possible ≤ 100 := by
  have h2p : 0 < 2 * possible := by omega
  have : 200 * earned + possible < 101 * (2 * possible) := by omega
  have := (Nat.div_lt_iff_lt_mul h2p).mpr this
  unfold roundPercent
  omega

/-- The fit score of a zero-possible evaluation is 100, and otherwise it is
the rounded percentage, which the clamp leaves unchanged. -/
theorem fitScoreOf_eq (earned possible : Nat) (hle : earned ≤ possible) :
    (possible = 0 → fitScoreOf earned possible = 100) ∧
    (0 < possible → fitScoreOf earned possible = roundPercent earned possible ∧
      fitScoreOf earned possible ≤ 100) := by
  constructor
  · intro h; simp [fitScoreOf, h]
  · intro h
    have hb := roundPercent_le_100 earned possible hle h
    have hne : possible ≠ 0 := by omega
    constructor
    · simp only [fitScoreOf, hne, if_false, roundPercent] at *
      omega
    · simp only [fitScoreOf, hne, if_false]
      exact le_trans (min_le_left _ _) (le_refl _)

/-! ## Concrete evaluation fixtures used by the witnesses -/

/-- A concrete parameter catalog with an integer, an enumeration and a second
integer parameter. -/
def witnessCatalog : Catalog :=
  [("fico_score", ⟨ParamType.integer, []⟩),
   ("state", ⟨ParamType.enumeration, ["CA", "TX"]⟩),
   ("annual_revenue", ⟨ParamType.integer, []⟩)]

/-- A concrete application: a 600 FICO score and the state CA, with no entry
for annual revenue. -/
def witnessApp : ApplicationRecord :=
  [("fico_score", EngineValue.int 600), ("state", EngineValue.str "CA")]

/-- A hard rule requiring a FICO score of at least 650; it fails on the
witness application. -/
def ruleFicoGte650 : SpecRule :=
  { id := "r1", parameterKey := "fico_score", operator := .gte,
    comparisonValue := .value (.int 650), weight := 0, failureReason := none }

/-- A scoring rule requiring the state to be CA or TX; it passes on the
witness application. -/
def ruleStateIn : SpecRule :=
  { id := "r2", parameterKey := "state", operator := .inSet,
    comparisonValue := .set ["CA", "TX"], weight := 50, failureReason := none }

/-- A scoring rule on annual revenue, a key the witness application lacks. -/
def ruleRevenueGte : SpecRule :=
  { id := "r3", parameterKey := "annual_revenue", operator := .gte,
    comparisonValue := .value (.int 150000), weight := 50, failureReason := none }

/-- A policy whose hard root group contains the failing FICO rule and a soft
subgroup whose only rule passes. -/
def policyHardKnockout : SpecPolicy :=
  { id := "p1", lenderId := "l1", name := "Knockout",
    minFitScore := 0,
    rootGroup := .mk .and .hard
      [.rule ruleFicoGte650, .group (.mk .and .soft [.rule ruleStateIn])] }

/-- A policy whose soft root group contains two weight-50 scoring rules, one
passing and one failing for lack of data. -/
def policyScoring : SpecPolicy :=
  { id := "p2", lenderId := "l2", name := "Scoring",
    minFitScore := 60,
    rootGroup := .mk .and .soft [.rule ruleStateIn, .rule ruleRevenueGte] }

/-! ## Claims about the engine -/

/-- C1: for every policy evaluation, a zero total possible scoring weight
yields a fit score of exactly 100, and a positive possible weight yields the
rounded percentage of earned over possible weight, which lies in the 0 to 100
range. -/
theorem fitScore_normalization (p : SpecPolicy) (app : ApplicationRecord) (catalog : Catalog) :
    ((evaluateGroup p.rootGroup app catalog).possible = 0 →
      (evaluatePolicy p app catalog).fitScore = 100) ∧
    (0 < (evaluateGroup p.rootGroup app catalog).possible →
      (evaluatePolicy p app catalog).fitScore =
        roundPercent (evaluateGroup p.rootGroup app catalog).earned
          (evaluateGroup p.rootGroup app catalog).possible ∧
      (evaluatePolicy p app catalog).fitScore ≤ 100) := by
  have hle := evaluateGroup_earned_le_possible p.rootGroup app catalog
  have hfit : (evaluatePolicy p app catalog).fitScore =
      fitScoreOf (evaluateGroup p.rootGroup app catalog).earned
        (evaluateGroup p.rootGroup app catalog).possible := rfl
  rw [hfit]
  exact fitScoreOf_eq _ _ hle

/-- C1 witness: the scoring policy has positive possible weight 100, and its
fit score is the rounded percentage 50, within bounds. -/
theorem fitScore_normalization_witness :
    0 < (evaluateGroup policyScoring.rootGroup witnessApp witnessCatalog).possible ∧
    (evaluatePolicy policyScoring witnessApp witnessCatalog).fitScore =
      roundPercent (evaluateGroup policyScoring.rootGroup witnessApp witnessCatalog).earned
        (evaluateGroup policyScoring.rootGroup witnessApp witnessCatalog).possible ∧
    (evaluatePolicy policyScoring witnessApp witnessCatalog).fitScore ≤ 100 :=
  ⟨by decide,
   ((fitScore_normalization policyScoring witnessApp witnessCatalog).2 (by decide)).1,
   ((fitScore_normalization policyScoring witnessApp witnessCatalog).2 (by decide)).2⟩

/-- C2: a policy evaluation is eligible exactly when the root group aggregate
passes and the fit score reaches the minimum fit score, and a failing root
aggregate forces ineligibility regardless of the fit score. -/
theorem eligible_iff_pass_and_threshold (p : SpecPolicy) (app : ApplicationRecord)
    (catalog : Catalog) :
    ((evaluatePolicy p app catalog).eligible = true ↔
      ((evaluateGroup p.rootGroup app catalog).aggregatePass = true ∧
        p.minFitScore ≤ (evaluatePolicy p app catalog).fitScore)) ∧
    ((evaluateGroup p.rootGroup app catalog).aggregatePass = false →
      (evaluatePolicy p app catalog).eligible = false) := by
  constructor
  · simp [evaluatePolicy]
  · intro h
    simp [evaluatePolicy, h]

/-- C2 witness: the knockout policy has a failing hard rule and a passing soft
subtree, a full fit score of 100, and is nevertheless ineligible. -/
theorem eligible_iff_pass_and_threshold_witness :
    (evaluateGroup policyHardKnockout.rootGroup witnessApp witnessCatalog).aggregatePass = false ∧
    (evaluatePolicy policyHardKnockout witnessApp witnessCatalog).fitScore = 100 ∧
    (evaluatePolicy policyHardKnockout witnessApp witnessCatalog).eligible = false :=
  ⟨by decide, by decide,
   (eligible_iff_pass_and_threshold policyHardKnockout witnessApp witnessCatalog).2 (by decide)⟩

/-- C4: a rule whose parameter key has no entry in the application record
evaluates to a failed result whose reason is the missing-value message; the
evaluator is a total function, so no such rule throws or is skipped. -/
theorem missing_value_fails_rule (r : SpecRule) (app : ApplicationRecord) (catalog : Catalog)
    (h : lookupKey app r.parameterKey = none) :
    (evaluateRule r app catalog).passed = false ∧
    (evaluateRule r app catalog).failureReason =
      some ("missing value for " ++ r.parameterKey) := by
  simp [evaluateRule, h, failedResult]

/-- C4 witness: the annual revenue rule fails on the witness application with
the missing-value reason. -/
theorem missing_value_fails_rule_witness :
    lookupKey witnessApp ruleRevenueGte.parameterKey = none ∧
    (evaluateRule ruleRevenueGte witnessApp witnessCatalog).passed = false ∧
    (evaluateRule ruleRevenueGte witnessApp witnessCatalog).failureReason =
      some ("missing value for " ++ ruleRevenueGte.parameterKey) :=
  ⟨by decide,
   (missing_value_fails_rule ruleRevenueGte witnessApp witnessCatalog (by decide)).1,
   (missing_value_fails_rule ruleRevenueGte witnessApp witnessCatalog (by decide)).2⟩

/-- C8: two evaluations of the same policy, application and catalog triple
yield identical results: the same eligibility, the same fit score and the same
evaluations in the same order. -/
theorem evaluation_deterministic (p : SpecPolicy) (app : ApplicationRecord) (catalog : Catalog)
    (r₁ r₂ : EngineMatchResult)
    (h₁ : r₁ = evaluatePolicy p app catalog) (h₂ : r₂ = evaluatePolicy p app catalog) :
    r₁.eligible = r₂.eligible ∧ r₁.fitScore = r₂.fitScore ∧
      r₁.evaluations = r₂.evaluations := by
  subst h₁
  subst h₂
  exact ⟨rfl, rfl, rfl⟩

/-- C8 witness: two evaluations of the knockout policy on the witness
application agree on eligibility, fit score and evaluations. -/
theorem evaluation_deterministic_witness :
    (evaluatePolicy policyHardKnockout witnessApp witnessCatalog).eligible =
      (evaluatePolicy policyHardKnockout witnessApp witnessCatalog).eligible ∧
    (evaluatePolicy policyHardKnockout witnessApp witnessCatalog).fitScore =
      (evaluatePolicy policyHardKnockout witnessApp witnessCatalog).fitScore ∧
    (evaluatePolicy policyHardKnockout witnessApp witnessCatalog).evaluations =
      (evaluatePolicy policyHardKnockout witnessApp witnessCatalog).evaluations :=
  evaluation_deterministic policyHardKnockout witnessApp witnessCatalog _ _ rfl rfl

/-! ## Claims about the reasoning display -/

/-- A passed evaluation as the UI receives it: state CA within the permitted
set. -/
def evalPassed : RuleEvaluationResult :=
  { rule_id := "e1", parameter_key := "state", parameter_label := "State",
    operator := "in", passed := true, actual_value := .prim (.s "CA"),
    threshold_value := .arr [.s "CA", .s "TX"], failure_reason := none }

/-- A failed evaluation carrying a configured, non-empty failure reason. -/
def evalFailedReason : RuleEvaluationResult :=
  { rule_id := "e2", parameter_key := "fico_score", parameter_label := "FICO Score",
    operator := "gte", passed := false, actual_value := .prim (.n 600),
    threshold_value := .prim (.n 650),
    failure_reason := some "Credit score below minimum 650" }

/-- A failed evaluation whose configured failure reason is present but is the
empty string. -/
def evalEmptyReason : RuleEvaluationResult :=
  { rule_id := "e3", parameter_key := "fico_score", parameter_label := "FICO Score",
    operator := "gte", passed := false, actual_value := .prim (.n 600),
    threshold_value := .prim (.n 650), failure_reason := some "" }

/-- C5 counterexample: an evaluation whose failure_reason is present but
empty is rendered with the synthesized detail, not with the configured
reason, because the JavaScript or-expression treats the empty string as
absent. -/
theorem rendered_failure_reason_counterexample :
    evalEmptyReason.failure_reason = some "" ∧
    evalEmptyReason.passed = false ∧
    renderedItem evalEmptyReason = "FICO Score: 600 ≥ 650" ∧
    renderedItem evalEmptyReason ≠ evalEmptyReason.parameter_label ++ ": " ++ "" := by
  refine ⟨rfl, rfl, by decide, by decide⟩

/-- C5 amended: a passed evaluation is rendered without any failure reason; a
failed evaluation is rendered with its configured failure reason when that
reason is present and non-empty, and otherwise with the detail synthesized
from the parameter label, the operator symbol and the formatted values. -/
theorem rendered_failure_reason (e : RuleEvaluationResult) :
    (e.passed = true → renderedItem e = e.parameter_label ++ ": " ++ synthesizedDetail e) ∧
    (e.passed = false → ∀ r, e.failure_reason = some r → r ≠ "" →
      renderedItem e = e.parameter_label ++ ": " ++ r) ∧
    (e.passed = false → (e.failure_reason = none ∨ e.failure_reason = some "") →
      renderedItem e = e.parameter_label ++ ": " ++ synthesizedDetail e) := by
  refine ⟨fun hp => ?_, fun hp r hr hne => ?_, fun hp hr => ?_⟩
  · simp [renderedItem, hp, renderedPassedItem]
  · have hb : (r == "") = false := by
      cases hbe : r == "" with
      | true => exact absurd (by simpa using hbe) hne
      | false => rfl
    simp [renderedItem, hp, renderedFailedItem, hr, hb]
  · rcases hr with hr | hr <;> simp [renderedItem, hp, renderedFailedItem, hr]

/-- C5 witness: the passed fixture renders without a failure reason, and the
failed fixture with a configured non-empty reason renders that reason. -/
theorem rendered_failure_reason_witness :
    (evalPassed.passed = true ∧
      renderedItem evalPassed = evalPassed.parameter_label ++ ": " ++ synthesizedDetail evalPassed) ∧
    (evalFailedReason.passed = false ∧
      renderedItem evalFailedReason =
        evalFailedReason.parameter_label ++ ": " ++ "Credit score below minimum 650") :=
  ⟨⟨rfl, (rendered_failure_reason evalPassed).1 rfl⟩,
   ⟨rfl, (rendered_failure_reason evalFailedReason).2.1 rfl
      "Credit score below minimum 650" rfl (by decide)⟩⟩

/-- C6: the Criteria Met and Criteria Failed lists partition the evaluations:
their concatenation is a permutation of the evaluations list, every
evaluation occurs in the two sections exactly as often as in the input, and
each section preserves the relative order of the input. -/
theorem sections_partition_evaluations (evaluations : List RuleEvaluationResult) :
    List.Perm (passedRules evaluations ++ failedRules evaluations) evaluations ∧
    (∀ e, (passedRules evaluations ++ failedRules evaluations).count e =
      evaluations.count e) ∧
    List.Sublist (passedRules evaluations) evaluations ∧
    List.Sublist (failedRules evaluations) evaluations := by
  have hperm : List.Perm (passedRules evaluations ++ failedRules evaluations) evaluations := by
    unfold passedRules failedRules
    exact List.filter_append_perm (fun e => e.passed) evaluations
  exact ⟨hperm, fun e => hperm.count_eq e, List.filter_sublist _, List.filter_sublist _⟩

/-- C9: formatValue is total on display values and maps booleans to Yes or
No, numbers to their locale string, arrays to their elements joined by comma
and space, and the remaining values through the String conversion. -/
theorem formatValue_total_mapping :
    (∀ v : Bool, formatValue (.prim (.b v)) = if v then "Yes" else "No") ∧
    (∀ v : Int, formatValue (.prim (.n v)) = localeString v) ∧
    (∀ l : List JsPrim, formatValue (.arr l) = String.intercalate ", " (l.map jsString)) ∧
    (∀ v : String, formatValue (.prim (.s v)) = v) :=
  ⟨fun _ => rfl, fun _ => rfl, fun _ => rfl, fun _ => rfl⟩

/-! ## Claims about the operator vocabulary -/

/-- The operator values offered by the rule editors, the OPERATORS constant of
PolicyRuleEditor and RuleBuilder, matching the RuleOperator union of the
frontend models. -/
def supportedRuleOperators : List String :=
  ["gt", "gte", "lt", "lte", "eq", "neq", "in", "contains"]

/-- Stated from the spec for comparison: the operator names the spec lists in
its data model section. -/
def specListedOperators : List String :=
  ["eq", "neq", "gt", "gte", "lt", "lte", "inSet", "contains", "between"]

/-- C7 counterexample: the program's operator vocabulary does not include
every operator the spec lists: between and inSet are absent. -/
theorem operators_counterexample :
    ¬ (∀ op ∈ specListedOperators, op ∈ supportedRuleOperators) ∧
    "between" ∉ supportedRuleOperators ∧ "inSet" ∉ supportedRuleOperators := by
  decide

/-- C7 amended: the supported operator vocabulary covers eq, neq, gt, gte,
lt, lte and contains, spells set membership in rather than inSet, and offers
no between operator. -/
theorem operators_supported :
    (["eq", "neq", "gt", "gte", "lt", "lte", "contains"].all
      (fun op => supportedRuleOperators.contains op)) = true ∧
    "in" ∈ supportedRuleOperators ∧
    "between" ∉ supportedRuleOperators := by
  decide

/-! ## Match ranking and presentation order -/

/-- The MatchResult record of the frontend models (src/unnamed/part_005), as
delivered to the results views. -/
structure MatchResult where
  id : String
  application_id : String
  policy_id : String
  lender_name : String
  program_name : String
  eligible : Bool
  fit_score : Nat
  evaluations : List RuleEvaluationResult
  created_at : String

/-- Rank of the eligibility flag: eligible results sort before ineligible
ones. -/
def eligRank (m : MatchResult) : Nat := if m.eligible then 0 else 1

/-- Modelled from the spec: the presentation preorder of the Match Ranker
(section 4.4): eligible matches first, fit score descending, ties broken by
lender name ascending. -/
def rankedBefore (a b : MatchResult) : Prop :=
  eligRank a < eligRank b ∨
    (eligRank a = eligRank b ∧
      (b.fit_score < a.fit_score ∨
        (b.fit_score = a.fit_score ∧ a.lender_name ≤ b.lender_name)))

instance : DecidableRel rankedBefore := fun a b => by
  unfold rankedBefore
  infer_instance

instance : IsTotal MatchResult rankedBefore :=
  ⟨fun a b => by
    unfold rankedBefore
    rcases Nat.lt_trichotomy (eligRank a) (eligRank b) with h | h | h
    · exact Or.inl (Or.inl h)
    · rcases Nat.lt_trichotomy a.fit_score b.fit_score with hf | hf | hf
      · exact Or.inr (Or.inr ⟨h.symm, Or.inl hf⟩)
      · rcases le_total a.lender_name b.lender_name with hn | hn
        · exact Or.inl (Or.inr ⟨h, Or.inr ⟨hf.symm, hn⟩⟩)
        · exact Or.inr (Or.inr ⟨h.symm, Or.inr ⟨hf, hn⟩⟩)
      · exact Or.inl (Or.inr ⟨h, Or.inl hf⟩)
    · exact Or.inr (Or.inl h)⟩

instance : IsTrans MatchResult rankedBefore :=
  ⟨fun a b c hab hbc => by
    unfold rankedBefore at hab hbc ⊢
    rcases hab with h1 | ⟨h1, h2⟩
    · rcases hbc with h3 | ⟨h3, _⟩
      · exact Or.inl (by omega)
      · exact Or.inl (by omega)
    · rcases hbc with h3 | ⟨h3, h4⟩
      · exact Or.inl (by omega)
      · refine Or.inr ⟨by omega, ?_⟩
        rcases h2 with hf | ⟨hf, hn⟩
        · rcases h4 with hf2 | ⟨hf2, _⟩
          · exact Or.inl (by omega)
          · exact Or.inl (by omega)
        · rcases h4 with hf2 | ⟨hf2, hn2⟩
          · exact Or.inl (by omega)
          · exact Or.inr ⟨by omega, le_trans hn hn2⟩⟩

/-- Modelled from the spec: the Match Ranker presentation order, realized as a
stable sort by the ranking preorder. -/
def rankMatches (l : List MatchResult) : List MatchResult :=
  List.insertionSort rankedBefore l

/-- The eligible section of MatchingResults: ms.filter(m => m.eligible). -/
def eligibleMatches (ms : List MatchResult) : List MatchResult :=
  ms.filter (fun m => m.eligible)

/-- The ineligible section of MatchingResults: ms.filter(m => !m.eligible). -/
def ineligibleMatches (ms : List MatchResult) : List MatchResult :=
  ms.filter (fun m => !m.eligible)

/-- The order in which MatchingResults lays out the match cards: the Approved
section before the Declined section, each in list order. -/
def displayedMatches (ms : List MatchResult) : List MatchResult :=
  eligibleMatches ms ++ ineligibleMatches ms

/-- The pairwise ordering the spec promises of presented matches: no
ineligible match precedes an eligible one, and within equal eligibility the
fit scores are descending with ties broken by lender name ascending. -/
def presentedInOrder (a b : MatchResult) : Prop :=
  (b.eligible = true → a.eligible = true) ∧
  (a.eligible = b.eligible →
    b.fit_score ≤ a.fit_score ∧
      (b.fit_score = a.fit_score → a.lender_name ≤ b.lender_name))

/-- The ranking preorder implies the presented pairwise ordering. -/
theorem rankedBefore_imp_presented (a b : MatchResult) (h : rankedBefore a b) :
    presentedInOrder a b := by
  rcases h with h | ⟨h, h2⟩
  · unfold eligRank at h
    constructor
    · intro hb
      cases ha : a.eligible
      · rw [ha, hb] at h
        simp at h
      · rfl
    · intro he
      rw [he] at h
      exact absurd h (lt_irrefl _)
  · unfold eligRank at h
    constructor
    · intro hb
      cases ha : a.eligible
      · rw [ha, hb] at h
        simp at h
      · rfl
    · intro _
      rcases h2 with hf | ⟨hf, hn⟩
      · exact ⟨le_of_lt hf, fun heq => absurd heq (by omega)⟩
      · exact ⟨le_of_eq hf, fun _ => hn⟩

/-- C3: in the displayed list of ranked matches, eligible matches appear
before ineligible matches, and within each section matches are sorted by fit
score descending with ties broken by lender name ascending. -/
theorem ranked_display_order (l : List MatchResult) :
    List.Pairwise presentedInOrder (displayedMatches (rankMatches l)) := by
  have hs : List.Sorted rankedBefore (rankMatches l) :=
    List.sorted_insertionSort rankedBefore l
  have hp : List.Pairwise presentedInOrder (rankMatches l) :=
    hs.imp (fun h => rankedBefore_imp_presented _ _ h)
  unfold displayedMatches eligibleMatches ineligibleMatches
  refine List.pairwise_append.mpr ⟨?_, ?_, ?_⟩
  · exact hp.sublist (List.filter_sublist _)
  · exact hp.sublist (List.filter_sublist _)
  · intro a ha b hb
    have ha2 := (List.mem_filter.mp ha).2
    have hb2 := (List.mem_filter.mp hb).2
    simp only [Bool.not_eq_eq_eq_not, Bool.not_true] at hb2
    constructor
    · intro _
      exact ha2
    · intro he
      rw [ha2, hb2] at he
      simp at he

/-! ## The numeric value input of the rule editors

The number and currency branch of renderValueInput in PolicyRuleEditor and
RuleBuilder stores parseFloat(e.target.value) || 0.  The model below follows
the ECMAScript parseFloat algorithm on exact rationals, mapping a magnitude
beyond the double range to Infinity; finite magnitudes are kept exact, since
only the finiteness classification matters here, and the overflow and
underflow cutoffs are the exact IEEE-754 double rounding boundaries. -/

/-- A JavaScript number as parseFloat can produce it: NaN, a signed Infinity
or a finite value.  A finite value is kept as the exact scaled decimal the
literal denotes: a signed mantissa and a power-of-ten scale. -/
inductive JsNumber where
  | nan
  | inf (neg : Bool)
  | fin (num : ℤ) (scale : ℤ)
deriving DecidableEq

/-- Whitespace skipped by parseFloat before the numeric literal. -/
def isWsChar (c : Char) : Bool :=
  c == ' ' || c == '\t' || c == '\n' || c == '\r'

/-- Consume an optional leading sign, returning whether it was a minus. -/
def parseSign : List Char → (Bool × List Char)
  | '-' :: rest => (true, rest)
  | '+' :: rest => (false, rest)
  | cs => (false, cs)

/-- Whether the input starts with the literal word Infinity. -/
def startsWithInfinity : List Char → Bool
  | 'I' :: 'n' :: 'f' :: 'i' :: 'n' :: 'i' :: 't' :: 'y' :: _ => true
  | _ => false

/-- Numeric value of a digit list, most significant first. -/
def digitsToNat (ds : List Char) : Nat :=
  ds.foldl (fun acc c => 10 * acc + (c.toNat - '0'.toNat)) 0

/-- The longest-prefix decimal magnitude of the ECMAScript StrDecimalLiteral
after the sign: integer digits, an optional fraction, and an exponent that
only counts when it has at least one digit; none when no digit is found.  The
result is the mantissa and the power-of-ten scale of the exact value. -/
def parseDecimalMagnitude (cs : List Char) : Option (ℕ × ℤ) :=
  let intDigits := cs.takeWhile Char.isDigit
  let cs₂ := cs.drop intDigits.length
  let fracDigits :=
    match cs₂ with
    | '.' :: rest => rest.takeWhile Char.isDigit
    | _ => []
  let cs₃ :=
    match cs₂ with
    | '.' :: rest => rest.drop fracDigits.length
    | _ => cs₂
  if intDigits.isEmpty && fracDigits.isEmpty then none
  else
    let mantissa : ℕ := digitsToNat (intDigits ++ fracDigits)
    let expVal : ℤ :=
      match cs₃ with
      | e :: rest =>
        if e == 'e' || e == 'E' then
          let signed := parseSign rest
          let eds := signed.2.takeWhile Char.isDigit
          if eds.isEmpty then 0
          else if signed.1 then -(digitsToNat eds : ℤ) else (digitsToNat eds : ℤ)
        else 0
      | [] => 0
    some (mantissa, expVal - fracDigits.length)

/-- The IEEE-754 double overflow boundary: magnitudes at least this value,
two to the 1024 minus two to the 970, round to Infinity. -/
def doubleOverflow : ℕ := 2 ^ (1024 : ℕ) - 2 ^ (970 : ℕ)

/-- Whether the magnitude mantissa times ten to the scale reaches the double
overflow boundary, stated in integer arithmetic. -/
def overflows (m : ℕ) (k : ℤ) : Bool :=
  if 0 ≤ k then doubleOverflow ≤ m * 10 ^ k.toNat
  else doubleOverflow * 10 ^ (-k).toNat ≤ m

/-- Whether the magnitude mantissa times ten to the scale is below half of
the least subnormal double, two to the minus 1075, and so rounds to zero;
stated in integer arithmetic. -/
def underflows (m : ℕ) (k : ℤ) : Bool :=
  if 0 ≤ k then m = 0
  else m * 2 ^ (1075 : ℕ) < 10 ^ (-k).toNat

/-- Classification of an exact magnitude into the double domain: overflow to
Infinity, underflow to zero, and otherwise the exact finite value. -/
def toDoubleClass (neg : Bool) (m : ℕ) (k : ℤ) : JsNumber :=
  if overflows m k then JsNumber.inf neg
  else if underflows m k then JsNumber.fin 0 0
  else JsNumber.fin (if neg then -(m : ℤ) else (m : ℤ)) k

/-- Modelled from the ECMAScript parseFloat algorithm: skip whitespace, take
an optional sign, accept the Infinity literal or the longest decimal literal
prefix, and produce NaN when no digit is found. -/
def parseFloatJs (s : String) : JsNumber :=
  let cs := s.toList.dropWhile isWsChar
  let signed := parseSign cs
  if startsWithInfinity signed.2 then JsNumber.inf signed.1
  else
    match parseDecimalMagnitude signed.2 with
    | none => JsNumber.nan
    | some mk => toDoubleClass signed.1 mk.1 mk.2

/-- JavaScript truthiness of a number: NaN and zero are falsy, everything
else, Infinity included, is truthy. -/
def jsNumberTruthy : JsNumber → Bool
  | .nan => false
  | .inf _ => true
  | .fin n _ => decide (n ≠ 0)

/-- The value the numeric branch of renderValueInput stores on an edit:
parseFloat(input) || 0. -/
def storedComparisonValue (input : String) : JsNumber :=
  if jsNumberTruthy (parseFloatJs input) then parseFloatJs input else JsNumber.fin 0 0

/-- Whether a JavaScript number is finite. -/
def jsNumberFinite : JsNumber → Bool
  | .fin _ _ => true
  | _ => false

/-- C10 counterexample: the numeric input 1e999 is accepted by a number input
and parses to Infinity, which is truthy, so the stored comparison value is
Infinity and not a finite number. -/
theorem stored_value_counterexample :
    storedComparisonValue "1e999" = JsNumber.inf false ∧
    jsNumberFinite (storedComparisonValue "1e999") = false := by
  exact ⟨by decide, by decide⟩

/-- C10 amended: the numeric branch of the rule editors stores
parseFloat(input) || 0: the stored value is never NaN, any input whose parse
result is falsy, NaN or zero, including empty and non-numeric text, is
silently stored as zero, and any other input stores its parse result, which
for an overflowing literal is Infinity rather than a finite number. -/
theorem stored_value_parse_or_zero (input : String) :
    storedComparisonValue input ≠ JsNumber.nan ∧
    (jsNumberTruthy (parseFloatJs input) = false →
      storedComparisonValue input = JsNumber.fin 0 0) ∧
    (jsNumberTruthy (parseFloatJs input) = true →
      storedComparisonValue input = parseFloatJs input) := by
  refine ⟨?_, fun hf => ?_, fun ht => ?_⟩
  · intro hc
    unfold storedComparisonValue at hc
    split at hc
    · next h =>
      rw [hc] at h
      simp [jsNumberTruthy] at h
    · simp at hc
  · simp [storedComparisonValue, hf]
  · simp [storedComparisonValue, ht]

/-- C10 witness: the non-numeric input abc parses to NaN, so zero is stored,
and the input 650 parses to a truthy finite value, which is stored
unchanged. -/
theorem stored_value_parse_or_zero_witness :
    (jsNumberTruthy (parseFloatJs "abc") = false ∧
      storedComparisonValue "abc" = JsNumber.fin 0 0) ∧
    (jsNumberTruthy (parseFloatJs "650") = true ∧
      storedComparisonValue "650" = parseFloatJs "650") :=
  ⟨⟨by decide, (stored_value_parse_or_zero "abc").2.1 (by decide)⟩,
   ⟨by decide, (stored_value_parse_or_zero "650").2.2 (by decide)⟩⟩

end LenderMatching
